import Mathlib

/-!
Shallow embedding of `backend/rules_engine.py` (the FitFinder skill-matching
rules engine).  Python strings are modelled as `List Char`, Python floats as
`ℚ` (the engine only adds and multiplies small decimal constants), and a
Python `set` of normalized skills as a deduplicated list.  A rule's possible
runtime exception is modelled with `Except`: the five concrete rules always
return `.ok`, and the engine turns `.error` into a zero-score result exactly
as the `try/except` in `RulesEngine.evaluate_match` does.
-/

abbrev Skill := List Char

abbrev Ctx := List (List Char × List Char)

/-- Python `s.lower()` (ASCII case folding, which is all the engine exercises). -/
def pyLower (s : List Char) : List Char := s.map Char.toLower

/-- Python `s.strip()`: drop whitespace from both ends. -/
def pyStrip (s : List Char) : List Char :=
  (((s.dropWhile Char.isWhitespace).reverse).dropWhile Char.isWhitespace).reverse

/-- `skill.strip().lower()` as used by the rule-level set builders. -/
def normStripLower (s : Skill) : Skill := pyLower (pyStrip s)

/-- `skill.lower().strip()` as used by `_is_technical`, `_is_soft_skill`, the
similarity loop, and the engine's percentage / missing-skill computation. -/
def normLowerStrip (s : Skill) : Skill := pyStrip (pyLower s)

/-- Python `needle in hay` on strings (substring containment). -/
def pyIn (needle hay : List Char) : Bool := decide (needle <:+: hay)

/-- Python `" ".join(skills)`. -/
def joinSpace : List Skill → List Char
  | [] => []
  | [s] => s
  | s :: rest => s ++ ' ' :: joinSpace rest

/-- Python `", ".join(skills)`. -/
def joinCommaSpace : List Skill → List Char
  | [] => []
  | [s] => s
  | s :: rest => s ++ ',' :: ' ' :: joinCommaSpace rest

/-- Decimal representation of a natural number, for the f-string explanations. -/
def natStr (n : ℕ) : List Char := (Nat.repr n).data

/-- Floor of a rational, computably (`Int` division is Euclidean, the
denominator is positive). -/
def ratFloor (q : ℚ) : ℤ := q.num / (q.den : ℤ)

/-- Python `int(x)`: truncation toward zero. -/
def pyInt (q : ℚ) : ℤ := if q < 0 then -ratFloor (-q) else ratFloor q

/-- Python `round(x)` at integer precision: ties go to the even integer. -/
def roundHalfEven (q : ℚ) : ℤ :=
  if q - ratFloor q < 1/2 then ratFloor q
  else if q - ratFloor q > 1/2 then ratFloor q + 1
  else if ratFloor q % 2 = 0 then ratFloor q else ratFloor q + 1

/-- Python `round(x, 2)`. -/
def pyRound2 (q : ℚ) : ℚ := (roundHalfEven (q * 100) : ℚ) / 100

/-- `d[k] = v` on an insertion-ordered dict: overwrite in place, else append. -/
def dictInsert (m : Ctx) (k v : List Char) : Ctx :=
  if m.any (fun p => p.1 == k) then
    m.map (fun p => if p.1 == k then (p.1, v) else p)
  else m ++ [(k, v)]

def strs (l : List String) : List (List Char) := l.map String.data

/-- The dict `{"score": ..., "matches": ..., "explanation": ...}` returned by
each rule's `evaluate` (`matches` is a Lean keyword, so that key is the
`matched` field here). -/
structure RuleOutput where
  score : ℚ
  matched : List (List Char)
  explanation : List Char
deriving DecidableEq, Repr

/-- One entry of the `rule_results` list built by the engine loop. -/
structure RuleResult where
  rule_name : List Char
  score : ℚ
  weight : ℚ
  matched : List (List Char)
  explanation : List Char
deriving DecidableEq, Repr

/-- The dict returned by `RulesEngine.evaluate_match`. -/
structure MatchReport where
  total_score : ℚ
  percentage : ℤ
  rule_results : List RuleResult
  recommendations : List (List Char)
  missing_skills : List Skill
  matched_skills : List (List Char)
deriving DecidableEq, Repr

namespace ExactMatchRule

def weight : ℚ := 3

def evaluate (user_skills job_skills : List Skill) (_ : Ctx) : RuleOutput :=
  let user_set := (user_skills.map normStripLower).dedup
  let job_set := (job_skills.map normStripLower).dedup
  let found := user_set.filter (fun x => decide (x ∈ job_set))
  { score := (found.length : ℚ) * weight
    matched := found
    explanation := "Found ".data ++ natStr found.length ++ " exact skill matches".data }

end ExactMatchRule

namespace TechnicalSkillRule

def weight : ℚ := 5/2

def technical_keywords : List (List Char) := strs
  ["python", "java", "javascript", "c++", "sql", "html", "css", "react", "angular",
   "node.js", "docker", "kubernetes", "aws", "azure", "git", "linux", "mongodb",
   "postgresql", "mysql", "tensorflow", "pytorch", "pandas", "numpy", "django",
   "flask", "spring", "restapi", "graphql", "machine learning", "data analysis",
   "tableau", "power bi", "excel", "r programming", "scala", "golang", "rust"]

def isTechnical (skill : Skill) : Bool :=
  technical_keywords.any (fun tech => pyIn tech (normLowerStrip skill))

def evaluate (user_skills job_skills : List Skill) (_ : Ctx) : RuleOutput :=
  let user_tech := user_skills.filter isTechnical
  let job_tech := job_skills.filter isTechnical
  let user_tech_set := (user_tech.map normStripLower).dedup
  let job_tech_set := (job_tech.map normStripLower).dedup
  let tech_matches := user_tech_set.filter (fun x => decide (x ∈ job_tech_set))
  { score := (tech_matches.length : ℚ) * weight
    matched := tech_matches
    explanation := "Found ".data ++ natStr tech_matches.length ++
      " technical skill matches (weighted 2.5x)".data }

end TechnicalSkillRule

namespace SoftSkillRule

def weight : ℚ := 3/2

def soft_skill_keywords : List (List Char) := strs
  ["communication", "leadership", "teamwork", "problem solving", "critical thinking",
   "time management", "project management", "analytical thinking", "creativity",
   "adaptability", "collaboration", "presentation", "negotiation", "customer service"]

def isSoftSkill (skill : Skill) : Bool :=
  soft_skill_keywords.any (fun soft => pyIn soft (normLowerStrip skill))

def evaluate (user_skills job_skills : List Skill) (_ : Ctx) : RuleOutput :=
  let user_soft := user_skills.filter isSoftSkill
  let job_soft := job_skills.filter isSoftSkill
  let user_soft_set := (user_soft.map normStripLower).dedup
  let job_soft_set := (job_soft.map normStripLower).dedup
  let soft_matches := user_soft_set.filter (fun x => decide (x ∈ job_soft_set))
  { score := (soft_matches.length : ℚ) * weight
    matched := soft_matches
    explanation := "Found ".data ++ natStr soft_matches.length ++
      " soft skill matches (weighted 1.5x)".data }

end SoftSkillRule

namespace SimilarityRule

def weight : ℚ := 9/5

def similarity_map : List (List Char × List (List Char)) :=
  [("python".data, strs ["scripting", "automation", "data analysis"]),
   ("javascript".data, strs ["web development", "frontend", "react", "angular"]),
   ("sql".data, strs ["database", "data querying", "mysql", "postgresql"]),
   ("project management".data, strs ["coordination", "planning", "scrum", "agile"]),
   ("data analysis".data, strs ["analytics", "statistics", "reporting", "excel"]),
   ("machine learning".data, strs ["ai", "artificial intelligence", "deep learning", "ml"]),
   ("communication".data, strs ["presentation", "writing", "verbal communication"]),
   ("leadership".data, strs ["management", "team lead", "supervision"])]

def common_matches : List (List Char × List Char) :=
  [("js".data, "javascript".data), ("py".data, "python".data), ("sql".data, "database".data),
   ("ml".data, "machine learning".data), ("ai".data, "artificial intelligence".data),
   ("pm".data, "project management".data), ("dev".data, "development".data),
   ("admin".data, "administration".data), ("mgmt".data, "management".data)]

/-- The similarity-map loop of `_are_similar` (both directions per entry). -/
def mapCheck (skill1 skill2 : List Char) : Bool :=
  similarity_map.any (fun bs =>
    (pyIn bs.1 skill1 && bs.2.any (fun rel => pyIn rel skill2)) ||
    (pyIn bs.1 skill2 && bs.2.any (fun rel => pyIn rel skill1)))

/-- The first-4-characters comparison of `_are_similar`. -/
def first4Check (skill1 skill2 : List Char) : Bool :=
  decide (4 ≤ skill1.length) && decide (4 ≤ skill2.length) &&
    decide (skill1.take 4 = skill2.take 4)

/-- The abbreviation / full-form table scan of `_are_similar`. -/
def abbrevCheck (skill1 skill2 : List Char) : Bool :=
  common_matches.any (fun p =>
    (pyIn p.1 skill1 && pyIn p.2 skill2) || (pyIn p.1 skill2 && pyIn p.2 skill1))

def areSimilar (skill1 skill2 : List Char) : Bool :=
  mapCheck skill1 skill2 || first4Check skill1 skill2 || abbrevCheck skill1 skill2

/-- The ordered (user skill, job skill) pairs the nested loop of `evaluate`
finds similar, in loop order. -/
def simPairs (user_skills job_skills : List Skill) : List (Skill × Skill) :=
  user_skills.flatMap (fun us =>
    (job_skills.filter (fun js => areSimilar (normLowerStrip us) (normLowerStrip js))).map
      (fun js => (us, js)))

/-- The loop appends one formatted match and adds `weight` to the score per
similar pair, so the final score is `weight` times the number of pairs. -/
def evaluate (user_skills job_skills : List Skill) (_ : Ctx) : RuleOutput :=
  let similar_matches := (simPairs user_skills job_skills).map
    (fun p => p.1 ++ " ≈ ".data ++ p.2)
  { score := weight * (similar_matches.length : ℚ)
    matched := similar_matches
    explanation := "Found ".data ++ natStr similar_matches.length ++
      " similar skill matches".data }

end SimilarityRule

inductive Level where
  | senior
  | mid
  | junior
deriving DecidableEq, Repr

namespace ExperienceRule

def weight : ℚ := 2

def levelStr : Level → List Char
  | .senior => "senior".data
  | .mid => "mid".data
  | .junior => "junior".data

def experience_keywords : Level → List (List Char)
  | .senior => strs ["senior", "lead", "principal", "architect"]
  | .mid => strs ["mid-level", "intermediate", "experienced"]
  | .junior => strs ["junior", "entry-level", "associate", "trainee"]

def hasLevelKw (text : List Char) (level : Level) : Bool :=
  (experience_keywords level).any (fun keyword => pyIn keyword text)

/-- The dict scan of `_extract_experience_level`: buckets are tried in
insertion order `senior → mid → junior`; the first with a hit wins. -/
def levelFromFlags (s m j : Bool) : Option Level :=
  if s then some .senior else if m then some .mid else if j then some .junior else none

def extractLevelText (text : List Char) : Option Level :=
  levelFromFlags (hasLevelKw text .senior) (hasLevelKw text .mid) (hasLevelKw text .junior)

def extractExperienceLevel (skills : List Skill) : Option Level :=
  extractLevelText (pyLower (joinSpace skills))

def evaluate (user_skills job_skills : List Skill) (_ : Ctx) : RuleOutput :=
  let user_exp := extractExperienceLevel user_skills
  let job_exp := extractExperienceLevel job_skills
  match user_exp, job_exp with
  | some ue, some je =>
    if ue = je then
      let explanation := "Experience level match: ".data ++ levelStr ue
      { score := weight * 3, matched := [explanation], explanation := explanation }
    else if (ue = .senior ∧ je = .mid) ∨ (ue = .mid ∧ je = .junior) then
      let explanation := "Experience level compatible: ".data ++ levelStr ue ++
        " > ".data ++ levelStr je
      { score := weight * 2, matched := [explanation], explanation := explanation }
    else
      let explanation := "Experience level mismatch: ".data ++ levelStr ue ++
        " vs ".data ++ levelStr je
      { score := weight * (1/2), matched := [explanation], explanation := explanation }
  | _, _ =>
    { score := 0, matched := []
      explanation := "No clear experience level indicators found".data }

end ExperienceRule

/-- A configured rule as the engine sees it: a name, a weight, and an
evaluation that may raise (`.error`). -/
structure EngineRule where
  name : List Char
  weight : ℚ
  run : List Skill → List Skill → Ctx → Except (List Char) RuleOutput

def exactMatchRule : EngineRule :=
  { name := "Exact Match".data, weight := ExactMatchRule.weight
    run := fun u j c => .ok (ExactMatchRule.evaluate u j c) }

def technicalSkillRule : EngineRule :=
  { name := "Technical Skills".data, weight := TechnicalSkillRule.weight
    run := fun u j c => .ok (TechnicalSkillRule.evaluate u j c) }

def softSkillRule : EngineRule :=
  { name := "Soft Skills".data, weight := SoftSkillRule.weight
    run := fun u j c => .ok (SoftSkillRule.evaluate u j c) }

def similarityRule : EngineRule :=
  { name := "Similar Skills".data, weight := SimilarityRule.weight
    run := fun u j c => .ok (SimilarityRule.evaluate u j c) }

def experienceRule : EngineRule :=
  { name := "Experience Level".data, weight := ExperienceRule.weight
    run := fun u j c => .ok (ExperienceRule.evaluate u j c) }

/-- The fixed rule list built by `RulesEngine.__init__`. -/
def rulesEngineRules : List EngineRule :=
  [exactMatchRule, technicalSkillRule, softSkillRule, similarityRule, experienceRule]

/-- One iteration of the engine's rule loop, including the `except` fallback
that replaces a raising rule by a zero-score result. -/
def runRule (rule : EngineRule) (u j : List Skill) (context : Ctx) : RuleResult :=
  match rule.run u j context with
  | .ok result =>
    { rule_name := rule.name, score := result.score, weight := rule.weight
      matched := result.matched, explanation := result.explanation }
  | .error e =>
    { rule_name := rule.name, score := 0, weight := rule.weight
      matched := [], explanation := "Error: ".data ++ e }

/-- `user_context or {}`: an absent (None) or empty dict is falsy. -/
def pyOrCtx : Option Ctx → Ctx
  | none => []
  | some d => if d = [] then [] else d

/-- The context dict the rules receive, after
`context["job_description"] = job_description`. -/
def ctxFor (uc : Option Ctx) (job_description : List Char) : Ctx :=
  dictInsert (pyOrCtx uc) "job_description".data job_description

def tierMessage (percentage : ℤ) : List Char :=
  if 80 ≤ percentage then "🎯 Excellent match! You have most required skills.".data
  else if 60 ≤ percentage then "👍 Good match! Focus on closing key skill gaps.".data
  else if 40 ≤ percentage then "⚡ Moderate match. Significant skill development needed.".data
  else "📚 Low match. Consider building foundational skills first.".data

/-- `RulesEngine._generate_recommendations`. -/
def generate_recommendations (rule_results : List RuleResult) (missing_skills : List Skill)
    (percentage : ℤ) : List (List Char) :=
  tierMessage percentage ::
    (rule_results.filterMap (fun rr =>
      if rr.rule_name = "Technical Skills".data ∧ rr.score < 3 then
        some "💻 Focus on building technical skills for better job match.".data
      else if rr.rule_name = "Experience Level".data ∧ rr.score < 2 then
        some "⭐ Consider roles matching your experience level.".data
      else none)
    ++ (if missing_skills = [] then []
        else ["📖 Priority skills to learn: ".data ++ joinCommaSpace (missing_skills.take 3)]))

/-- The early return of `evaluate_match` when either list is empty.  The
source sets `missing_skills` to `job_skills if job_skills else []`, which is
`job_skills` in both cases, with no `[:10]` truncation. -/
def shortCircuitReport (job_skills : List Skill) : MatchReport :=
  { total_score := 0, percentage := 0, rule_results := []
    recommendations := ["No skills data available for comparison".data]
    missing_skills := job_skills, matched_skills := [] }

/-- `RulesEngine.evaluate_match`, generic in the rule list the constructor
installed (the real engine uses `rulesEngineRules`). -/
def evalMatchWith (rules : List EngineRule) (user_skills job_skills : List Skill)
    (job_description : List Char) (user_context : Option Ctx) : MatchReport :=
  if user_skills = [] ∨ job_skills = [] then shortCircuitReport job_skills
  else
    let context := ctxFor user_context job_description
    let rule_results := rules.map (fun rule => runRule rule user_skills job_skills context)
    let total_score : ℚ := (rule_results.map RuleResult.score).sum
    let all_matches := (rule_results.map RuleResult.matched).flatten
    let job_skills_lower := (job_skills.map normLowerStrip).dedup
    let user_skills_lower := (user_skills.map normLowerStrip).dedup
    let exact_matches :=
      (job_skills_lower.filter (fun x => decide (x ∈ user_skills_lower))).length
    let base_percentage : ℚ :=
      ((exact_matches : ℚ) / ((max 1 job_skills_lower.length : ℕ) : ℚ)) * 100
    let rule_bonus : ℚ := min 30 (total_score * 2)
    let percentage : ℤ := min 100 (pyInt (base_percentage + rule_bonus))
    let missing_skills :=
      job_skills.filter (fun skill => decide (normLowerStrip skill ∉ user_skills_lower))
    { total_score := pyRound2 total_score
      percentage := percentage
      rule_results := rule_results
      recommendations := generate_recommendations rule_results missing_skills percentage
      missing_skills := missing_skills.take 10
      matched_skills := all_matches.dedup.take 15 }

def evaluate_match (user_skills job_skills : List Skill) (job_description : List Char)
    (user_context : Option Ctx) : MatchReport :=
  evalMatchWith rulesEngineRules user_skills job_skills job_description user_context

/-- The caller's `user_context` dict after `evaluate_match` returns: with both
skill lists non-empty, `context = user_context or {}` aliases a supplied
non-empty dict, so `context["job_description"] = job_description` mutates it;
the short circuit returns before that line runs. -/
def userContextAfter (user_skills job_skills : List Skill) (job_description : List Char) :
    Option Ctx → Option Ctx
  | none => none
  | some d =>
    if user_skills = [] ∨ job_skills = [] then some d
    else if d = [] then some d
    else some (dictInsert d "job_description".data job_description)

/-! ### Spec-side definitions used by the claim statements -/

/-- The claim's normalization of a skill list, taken as a set: lower-case and
strip each skill, deduplicated. -/
def normalizedSet (l : List Skill) : List Skill := (l.map normLowerStrip).dedup

/-- `|normalized(job) ∩ normalized(user)|`, the engine's `exact_matches`. -/
def jobCoverageCount (u j : List Skill) : ℕ :=
  ((normalizedSet j).filter (fun x => decide (x ∈ normalizedSet u))).length

/-- The engine's `base_percentage`. -/
def engineBase (u j : List Skill) : ℚ :=
  ((jobCoverageCount u j : ℚ) / ((max 1 (normalizedSet j).length : ℕ) : ℚ)) * 100

/-- The sum of the five rules' scores (the engine's `total_score` before
rounding). -/
def totalScoreOf (u j : List Skill) (c : Ctx) : ℚ :=
  (ExactMatchRule.evaluate u j c).score + (TechnicalSkillRule.evaluate u j c).score +
    (SoftSkillRule.evaluate u j c).score + (SimilarityRule.evaluate u j c).score +
    (ExperienceRule.evaluate u j c).score

/-- The experience score as a function of the two extracted labels, as the
spec words it. -/
def expScoreVal (uo jo : Option Level) : ℚ :=
  match uo, jo with
  | some ue, some je =>
    if ue = je then ExperienceRule.weight * 3
    else if (ue = .senior ∧ je = .mid) ∨ (ue = .mid ∧ je = .junior) then
      ExperienceRule.weight * 2
    else ExperienceRule.weight * (1/2)
  | _, _ => 0

/-- The experience score doubled, as a natural number (6, 4, 0.5 and 0 become
12, 8, 2, 0): an order-isomorphic copy of `expScoreVal` on which kernel
evaluation is cheap. -/
def expScoreNat (uo jo : Option Level) : ℕ :=
  match uo, jo with
  | some ue, some je =>
    if ue = je then 12
    else if (ue = .senior ∧ je = .mid) ∨ (ue = .mid ∧ je = .junior) then 8
    else 2
  | _, _ => 0

/-- A deliberately failing rule, used as concrete input data when exercising
the engine's per-rule exception isolation. -/
def badRule : EngineRule :=
  { name := "Broken Rule".data, weight := 1, run := fun _ _ _ => .error "boom".data }

/-! ### Basic lemmas -/

lemma ratFloor_eq_floor (q : ℚ) : ratFloor q = ⌊q⌋ := by
  rw [ratFloor]; exact Rat.floor_def.symm

lemma pyInt_eq_floor (q : ℚ) (h : 0 ≤ q) : pyInt q = ⌊q⌋ := by
  rw [pyInt, if_neg (not_lt.mpr h), ratFloor_eq_floor]

lemma pyInt_nonneg (q : ℚ) (h : 0 ≤ q) : 0 ≤ pyInt q := by
  rw [pyInt_eq_floor q h]; exact Int.floor_nonneg.mpr h

lemma pyInt_mono (a b : ℚ) (ha : 0 ≤ a) (hab : a ≤ b) : pyInt a ≤ pyInt b := by
  rw [pyInt_eq_floor a ha, pyInt_eq_floor b (ha.trans hab)]
  exact Int.floor_mono hab

lemma exactScore_nonneg (u j : List Skill) (c : Ctx) :
    0 ≤ (ExactMatchRule.evaluate u j c).score := by
  simp only [ExactMatchRule.evaluate, ExactMatchRule.weight]
  positivity

lemma techScore_nonneg (u j : List Skill) (c : Ctx) :
    0 ≤ (TechnicalSkillRule.evaluate u j c).score := by
  simp only [TechnicalSkillRule.evaluate, TechnicalSkillRule.weight]
  positivity

lemma softScore_nonneg (u j : List Skill) (c : Ctx) :
    0 ≤ (SoftSkillRule.evaluate u j c).score := by
  simp only [SoftSkillRule.evaluate, SoftSkillRule.weight]
  positivity

lemma simScore_nonneg (u j : List Skill) (c : Ctx) :
    0 ≤ (SimilarityRule.evaluate u j c).score := by
  simp only [SimilarityRule.evaluate, SimilarityRule.weight]
  positivity

lemma expEval_score (u j : List Skill) (c : Ctx) :
    (ExperienceRule.evaluate u j c).score =
      expScoreVal (ExperienceRule.extractExperienceLevel u)
        (ExperienceRule.extractExperienceLevel j) := by
  simp only [ExperienceRule.evaluate, expScoreVal]
  rcases ExperienceRule.extractExperienceLevel u with _ | ue <;>
    rcases ExperienceRule.extractExperienceLevel j with _ | je <;>
    simp <;> split_ifs <;> rfl

lemma expScoreVal_nonneg (uo jo : Option Level) : 0 ≤ expScoreVal uo jo := by
  rcases uo with _ | ue <;> rcases jo with _ | je <;>
    simp [expScoreVal, ExperienceRule.weight] <;> split_ifs <;> norm_num

lemma expScore_nonneg (u j : List Skill) (c : Ctx) :
    0 ≤ (ExperienceRule.evaluate u j c).score := by
  rw [expEval_score]; exact expScoreVal_nonneg _ _

lemma totalScoreOf_nonneg (u j : List Skill) (c : Ctx) : 0 ≤ totalScoreOf u j c := by
  have h1 := exactScore_nonneg u j c
  have h2 := techScore_nonneg u j c
  have h3 := softScore_nonneg u j c
  have h4 := simScore_nonneg u j c
  have h5 := expScore_nonneg u j c
  rw [totalScoreOf]; linarith

lemma engineBase_nonneg (u j : List Skill) : 0 ≤ engineBase u j := by
  rw [engineBase]; positivity

lemma engineTotal_eq (u j : List Skill) (c : Ctx) :
    ((rulesEngineRules.map (fun rule => runRule rule u j c)).map RuleResult.score).sum
      = totalScoreOf u j c := by
  simp only [rulesEngineRules, runRule, exactMatchRule, technicalSkillRule, softSkillRule,
    similarityRule, experienceRule, totalScoreOf, List.map_cons, List.map_nil,
    List.sum_cons, List.sum_nil]
  ring

lemma evalMatch_percentage_eq (u j : List Skill) (jd : List Char) (uc : Option Ctx)
    (hu : u ≠ []) (hj : j ≠ []) :
    (evaluate_match u j jd uc).percentage =
      min 100 (pyInt (engineBase u j + min 30 (totalScoreOf u j (ctxFor uc jd) * 2))) := by
  rw [evaluate_match, evalMatchWith, if_neg (by simp [hu, hj])]
  dsimp only
  rw [engineTotal_eq]
  simp only [engineBase, jobCoverageCount, normalizedSet]

lemma evalMatch_missing_eq (u j : List Skill) (jd : List Char) (uc : Option Ctx)
    (hu : u ≠ []) (hj : j ≠ []) :
    (evaluate_match u j jd uc).missing_skills =
      (j.filter (fun skill =>
        decide (normLowerStrip skill ∉ (u.map normLowerStrip).dedup))).take 10 := by
  rw [evaluate_match, evalMatchWith, if_neg (by simp [hu, hj])]

lemma evalMatch_matched_eq (u j : List Skill) (jd : List Char) (uc : Option Ctx)
    (hu : u ≠ []) (hj : j ≠ []) :
    (evaluate_match u j jd uc).matched_skills =
      (((rulesEngineRules.map (fun rule => runRule rule u j (ctxFor uc jd))).map
        RuleResult.matched).flatten).dedup.take 15 := by
  rw [evaluate_match, evalMatchWith, if_neg (by simp [hu, hj])]

/-- C2: for every input, the percentage field of the MatchReport returned by
`evaluate_match` is an integer in [0, 100] inclusive, even though the raw
total score is unbounded above; in particular this holds for all non-empty
inputs. -/
theorem C2_percentage_in_range (u j : List Skill) (jd : List Char) (uc : Option Ctx) :
    0 ≤ (evaluate_match u j jd uc).percentage ∧
      (evaluate_match u j jd uc).percentage ≤ 100 := by
  by_cases hc : u = [] ∨ j = []
  · rw [evaluate_match, evalMatchWith, if_pos hc]
    constructor <;> simp [shortCircuitReport]
  · push_neg at hc
    rw [evalMatch_percentage_eq u j jd uc hc.1 hc.2]
    have hS : 0 ≤ engineBase u j + min 30 (totalScoreOf u j (ctxFor uc jd) * 2) := by
      have h1 := engineBase_nonneg u j
      have h2 : (0 : ℚ) ≤ min 30 (totalScoreOf u j (ctxFor uc jd) * 2) :=
        le_min (by norm_num) (mul_nonneg (totalScoreOf_nonneg u j _) (by norm_num))
      linarith
    exact ⟨le_min (by norm_num) (pyInt_nonneg _ hS), min_le_left _ _⟩

/-- C4: with an empty user or job skill list, `evaluate_match` short-circuits
before running any rule and returns the zero report whose only
recommendation signals that no skills data is available, whose missing
skills are the job skills verbatim, and whose matched skills are empty; in
particular `evaluate_match [] ["sql"]` yields percentage 0 and missing
skills `["sql"]`. -/
theorem C4_empty_input_short_circuit (u j : List Skill) (jd : List Char) (uc : Option Ctx)
    (h : u = [] ∨ j = []) :
    evaluate_match u j jd uc =
      { total_score := 0, percentage := 0, rule_results := []
        recommendations := ["No skills data available for comparison".data]
        missing_skills := j, matched_skills := [] } ∧
    (evaluate_match [] ["sql".data] jd uc).percentage = 0 ∧
    (evaluate_match [] ["sql".data] jd uc).missing_skills = ["sql".data] := by
  have hshort : ∀ (u' j' : List Skill), u' = [] ∨ j' = [] →
      evaluate_match u' j' jd uc = shortCircuitReport j' := by
    intro u' j' h'
    rw [evaluate_match, evalMatchWith, if_pos h']
  refine ⟨?_, ?_, ?_⟩
  · rw [hshort u j h]; rfl
  · rw [hshort [] ["sql".data] (Or.inl rfl)]; rfl
  · rw [hshort [] ["sql".data] (Or.inl rfl)]; rfl

theorem C4_empty_input_short_circuit_witness :
    (evaluate_match [] ["sql".data] [] none).percentage = 0 ∧
    (evaluate_match [] ["sql".data] [] none).missing_skills = ["sql".data] :=
  ⟨(C4_empty_input_short_circuit [] ["sql".data] [] none (Or.inl rfl)).2.1,
   (C4_empty_input_short_circuit [] ["sql".data] [] none (Or.inl rfl)).2.2⟩

/-- C5 counterexample: on the degenerate input with an empty user list and
eleven job skills, the short circuit copies all eleven job skills into
`missing_skills`, so its length is not at most 10 and the claim fails as
stated for "every input". -/
theorem C5_counterexample :
    ¬ ((evaluate_match []
          (strs ["a", "b", "c", "d", "e", "f", "g", "h", "i", "j", "k"])
          [] none).missing_skills.length ≤ 10) := by decide

/-- C5 amended: `matched_skills` always has at most 15 entries and is
de-duplicated; `missing_skills` has at most 10 entries whenever both input
lists are non-empty, while the degenerate short circuit returns the job
skills verbatim (which may exceed 10). -/
theorem C5_amended (u j : List Skill) (jd : List Char) (uc : Option Ctx) :
    ((evaluate_match u j jd uc).matched_skills.length ≤ 15 ∧
      (evaluate_match u j jd uc).matched_skills.Nodup) ∧
    (u ≠ [] → j ≠ [] → (evaluate_match u j jd uc).missing_skills.length ≤ 10) ∧
    (u = [] ∨ j = [] → (evaluate_match u j jd uc).missing_skills = j) := by
  by_cases hc : u = [] ∨ j = []
  · rw [evaluate_match, evalMatchWith, if_pos hc]
    refine ⟨⟨by simp [shortCircuitReport], by simp [shortCircuitReport]⟩, ?_, ?_⟩
    · intro hu hj
      rcases hc with hc | hc
      · exact absurd hc hu
      · exact absurd hc hj
    · intro _; rfl
  · push_neg at hc
    refine ⟨?_, ?_, ?_⟩
    · rw [evalMatch_matched_eq u j jd uc hc.1 hc.2]
      exact ⟨List.length_take_le _ _,
        (List.take_sublist _ _).nodup (List.nodup_dedup _)⟩
    · intro _ _
      rw [evalMatch_missing_eq u j jd uc hc.1 hc.2]
      exact List.length_take_le _ _
    · intro h
      rcases h with h | h
      · exact absurd h hc.1
      · exact absurd h hc.2

theorem C5_amended_witness :
    (evaluate_match ["python".data] ["sql".data] [] none).matched_skills.length ≤ 15 ∧
    (evaluate_match ["python".data] ["sql".data] [] none).matched_skills.Nodup ∧
    (evaluate_match ["python".data] ["sql".data] [] none).missing_skills.length ≤ 10 :=
  ⟨(C5_amended ["python".data] ["sql".data] [] none).1.1,
   (C5_amended ["python".data] ["sql".data] [] none).1.2,
   (C5_amended ["python".data] ["sql".data] [] none).2.1 (by decide) (by decide)⟩

/-- C6 counterexample: a supplied non-empty `user_context` dict is not left
unchanged by `evaluate_match` — the engine writes the `job_description` key
into the caller's dict (lines 239-240 alias the dict and assign into it). -/
theorem C6_counterexample :
    ¬ (userContextAfter ["a".data] ["b".data] "x".data (some [("k".data, "v".data)]) =
        some [("k".data, "v".data)]) := by decide

/-- C6 amended: `evaluate_match` constructs fresh result objects, but when
both skill lists are non-empty and the caller supplies a non-empty context
dict, the call sets its `job_description` key (adding or overwriting); an
absent context, an empty context, or a short-circuited call leaves the
caller's dict unchanged. -/
theorem C6_amended (u j : List Skill) (jd : List Char) (d : Ctx) :
    userContextAfter u j jd none = none ∧
    (u = [] ∨ j = [] → userContextAfter u j jd (some d) = some d) ∧
    (d = [] → userContextAfter u j jd (some d) = some d) ∧
    (u ≠ [] → j ≠ [] → d ≠ [] →
      userContextAfter u j jd (some d) =
        some (dictInsert d "job_description".data jd)) := by
  refine ⟨rfl, ?_, ?_, ?_⟩
  · intro h
    simp only [userContextAfter]
    rw [if_pos h]
  · intro h
    subst h
    simp only [userContextAfter]
    split_ifs <;> rfl
  · intro hu hj hd
    simp only [userContextAfter]
    rw [if_neg (by simp [hu, hj]), if_neg hd]

theorem C6_amended_witness :
    userContextAfter ["a".data] ["b".data] "x".data (some [("k".data, "v".data)]) =
      some (dictInsert [("k".data, "v".data)] "job_description".data "x".data) :=
  (C6_amended ["a".data] ["b".data] "x".data [("k".data, "v".data)]).2.2.2
    (by decide) (by decide) (by decide)

/-- C3: with non-empty inputs the engine produces exactly one rule result per
configured rule (5 for the real engine), and this is robust to a rule
raising: a raising rule's entry becomes a zero-score result carrying the
error message, the other rules still contribute their entries, and the
engine returns a full report rather than propagating the exception. -/
theorem C3_rule_failure_isolation (u j : List Skill) (jd : List Char) (uc : Option Ctx)
    (hu : u ≠ []) (hj : j ≠ []) :
    (evaluate_match u j jd uc).rule_results.length = 5 ∧
    (∀ rs : List EngineRule,
      (evalMatchWith rs u j jd uc).rule_results.length = rs.length ∧
      ∀ (i : ℕ) (r : EngineRule) (e : List Char), rs[i]? = some r →
        r.run u j (ctxFor uc jd) = Except.error e →
        (evalMatchWith rs u j jd uc).rule_results[i]? =
          some { rule_name := r.name, score := 0, weight := r.weight, matched := []
                 explanation := "Error: ".data ++ e }) := by
  have hres : ∀ rs : List EngineRule, (evalMatchWith rs u j jd uc).rule_results =
      rs.map (fun rule => runRule rule u j (ctxFor uc jd)) := by
    intro rs
    rw [evalMatchWith, if_neg (by simp [hu, hj])]
  constructor
  · rw [evaluate_match, hres]
    simp [rulesEngineRules]
  · intro rs
    constructor
    · rw [hres]
      simp
    · intro i r e h1 h2
      rw [hres, List.getElem?_map, h1]
      simp [runRule, h2]

theorem C3_rule_failure_isolation_witness :
    (evaluate_match ["a".data] ["b".data] [] none).rule_results.length = 5 ∧
    (evalMatchWith [badRule] ["a".data] ["b".data] [] none).rule_results[0]? =
      some { rule_name := badRule.name, score := 0, weight := badRule.weight, matched := []
             explanation := "Error: ".data ++ "boom".data } :=
  ⟨(C3_rule_failure_isolation ["a".data] ["b".data] [] none (by decide) (by decide)).1,
   ((C3_rule_failure_isolation ["a".data] ["b".data] [] none (by decide) (by decide)).2
      [badRule]).2 0 badRule "boom".data rfl rfl⟩

lemma filter_map_pair (a : Skill) (j : List Skill) :
    (j.filter (fun js => SimilarityRule.areSimilar (normLowerStrip a) (normLowerStrip js))).map
      (fun js => (a, js)) =
    (j.map (fun js => (a, js))).filter
      (fun p => SimilarityRule.areSimilar (normLowerStrip p.1) (normLowerStrip p.2)) := by
  induction j with
  | nil => rfl
  | cons b j ihj =>
    by_cases hb : SimilarityRule.areSimilar (normLowerStrip a) (normLowerStrip b) <;>
      simp [hb, ihj]

lemma simPairs_eq_filter (u j : List Skill) :
    SimilarityRule.simPairs u j =
      (u.flatMap (fun us => j.map (fun js => (us, js)))).filter (fun p =>
        SimilarityRule.areSimilar (normLowerStrip p.1) (normLowerStrip p.2)) := by
  induction u with
  | nil => rfl
  | cons a u ih =>
    simp only [SimilarityRule.simPairs] at ih ⊢
    simp only [List.flatMap_cons, List.filter_append, filter_map_pair] at ih ⊢
    rw [ih]

/-- C8: `SimilarityRule.evaluate` scores exactly `weight` (1.8) once per
ordered (user skill, job skill) pair satisfying at least one of the three
similarity checks (similarity map, common 4-character prefix, abbreviation
table), records each pair as the formatted string `user ≈ job` in original
casing, and in particular the pair ("js", "javascript") is similar via the
abbreviation table and an entry mentioning both reaches `matched_skills`. -/
theorem C8_similarity_rule (u j : List Skill) (c : Ctx) :
    (SimilarityRule.evaluate u j c).score =
      SimilarityRule.weight *
        (((u.flatMap (fun us => j.map (fun js => (us, js)))).filter (fun p =>
            SimilarityRule.mapCheck (normLowerStrip p.1) (normLowerStrip p.2) ||
            SimilarityRule.first4Check (normLowerStrip p.1) (normLowerStrip p.2) ||
            SimilarityRule.abbrevCheck (normLowerStrip p.1) (normLowerStrip p.2))).length : ℚ) ∧
    (SimilarityRule.evaluate u j c).matched =
      ((u.flatMap (fun us => j.map (fun js => (us, js)))).filter (fun p =>
          SimilarityRule.areSimilar (normLowerStrip p.1) (normLowerStrip p.2))).map
        (fun p => p.1 ++ " ≈ ".data ++ p.2) ∧
    SimilarityRule.abbrevCheck (normLowerStrip "js".data) (normLowerStrip "javascript".data)
      = true ∧
    "js ≈ javascript".data ∈
      (evaluate_match ["js".data] ["javascript".data] [] none).matched_skills := by
  refine ⟨?_, ?_, by decide, by decide⟩
  · simp only [SimilarityRule.evaluate, List.length_map]
    rw [simPairs_eq_filter]
    simp only [SimilarityRule.areSimilar]
  · simp only [SimilarityRule.evaluate]
    rw [simPairs_eq_filter]

/-- C9: `ExperienceRule.evaluate` extracts at most one seniority label per
side by scanning the joined lower-cased skill text against the keyword
buckets in order senior, then mid, then junior (first hit wins), and scores
weight×3 for equal labels, weight×2 for (senior, mid) or (mid, junior),
weight×0.5 for any other pair of labels, and 0 with a no-indicators
explanation when either side has no label; in particular a senior user
against a junior job scores weight×0.5. -/
theorem C9_experience_rule (u j : List Skill) (c : Ctx) :
    (ExperienceRule.evaluate u j c).score =
      expScoreVal (ExperienceRule.extractExperienceLevel u)
        (ExperienceRule.extractExperienceLevel j) ∧
    (∀ skills : List Skill,
      ExperienceRule.extractExperienceLevel skills =
        ExperienceRule.levelFromFlags
          (ExperienceRule.hasLevelKw (pyLower (joinSpace skills)) .senior)
          (ExperienceRule.hasLevelKw (pyLower (joinSpace skills)) .mid)
          (ExperienceRule.hasLevelKw (pyLower (joinSpace skills)) .junior)) ∧
    ((ExperienceRule.extractExperienceLevel u = none ∨
        ExperienceRule.extractExperienceLevel j = none) →
      (ExperienceRule.evaluate u j c).explanation =
        "No clear experience level indicators found".data) ∧
    (ExperienceRule.evaluate ["senior python developer".data]
        ["junior python developer".data] c).score = ExperienceRule.weight * (1/2) := by
  refine ⟨expEval_score u j c, fun skills => rfl, ?_, rfl⟩
  intro h
  rcases hu2 : ExperienceRule.extractExperienceLevel u with _ | ue <;>
    rcases hj2 : ExperienceRule.extractExperienceLevel j with _ | je <;>
    simp only [ExperienceRule.evaluate, hu2, hj2]
  exfalso
  rcases h with h | h <;> simp_all

theorem C9_experience_rule_witness :
    (ExperienceRule.evaluate ["python".data] ["junior dev".data] []).score =
      expScoreVal (ExperienceRule.extractExperienceLevel ["python".data])
        (ExperienceRule.extractExperienceLevel ["junior dev".data]) ∧
    (ExperienceRule.evaluate ["python".data] ["junior dev".data] []).explanation =
      "No clear experience level indicators found".data :=
  ⟨(C9_experience_rule ["python".data] ["junior dev".data] []).1,
   (C9_experience_rule ["python".data] ["junior dev".data] []).2.2.1 (Or.inl (by decide))⟩

/-- C10: whenever `ExperienceRule` detects a seniority label on both sides,
its matches list is exactly the one-element list holding its explanation
sentence, and the engine merges that sentence into `matched_skills`, so
matched skills can contain a full explanation sentence that is not a skill
name from either input list (subject to the 15-entry cap). -/
theorem C10_experience_sentence_merged (u j : List Skill) (c : Ctx) (lu lj : Level)
    (hu : ExperienceRule.extractExperienceLevel u = some lu)
    (hj : ExperienceRule.extractExperienceLevel j = some lj) :
    (ExperienceRule.evaluate u j c).matched =
      [(ExperienceRule.evaluate u j c).explanation] ∧
    "Experience level match: senior".data ∈
      (evaluate_match ["senior".data] ["senior".data] [] none).matched_skills ∧
    "Experience level match: senior".data ∉ (["senior".data] : List Skill) ∧
    (ExperienceRule.evaluate ["senior".data] ["senior".data] []).explanation =
      "Experience level match: senior".data := by
  refine ⟨?_, by decide, by decide, by decide⟩
  simp only [ExperienceRule.evaluate, hu, hj]
  split_ifs <;> rfl

theorem C10_experience_sentence_merged_witness :
    (ExperienceRule.evaluate ["senior".data] ["senior".data] []).matched =
      [(ExperienceRule.evaluate ["senior".data] ["senior".data] []).explanation] ∧
    "Experience level match: senior".data ∈
      (evaluate_match ["senior".data] ["senior".data] [] none).matched_skills :=
  ⟨(C10_experience_sentence_merged ["senior".data] ["senior".data] [] .senior .senior
      (by decide) (by decide)).1,
   (C10_experience_sentence_merged ["senior".data] ["senior".data] [] .senior .senior
      (by decide) (by decide)).2.1⟩

lemma baseBonus_nonneg (u j : List Skill) (c : Ctx) :
    0 ≤ engineBase u j + min 30 (totalScoreOf u j c * 2) := by
  have h1 := engineBase_nonneg u j
  have h2 : (0:ℚ) ≤ min 30 (totalScoreOf u j c * 2) :=
    le_min (by norm_num) (mul_nonneg (totalScoreOf_nonneg u j c) (by norm_num))
  linarith

/-- C1: for non-empty inputs the returned percentage equals
`min 100 ⌊base + bonus⌋` where `base` is 100 times the exact-match coverage
of the normalized job-skill set and `bonus` is `min 30 (totalScore × 2)`
with `totalScore` the sum of the five rules' scores. -/
theorem C1_percentage_formula (u j : List Skill) (jd : List Char) (uc : Option Ctx)
    (hu : u ≠ []) (hj : j ≠ []) :
    (evaluate_match u j jd uc).percentage =
      min 100 ⌊100 * (jobCoverageCount u j : ℚ) /
          ((max 1 (normalizedSet j).length : ℕ) : ℚ)
        + min 30 (totalScoreOf u j (ctxFor uc jd) * 2)⌋ := by
  rw [evalMatch_percentage_eq u j jd uc hu hj,
    pyInt_eq_floor _ (baseBonus_nonneg u j (ctxFor uc jd))]
  congr 2
  rw [engineBase]
  ring

theorem C1_percentage_formula_witness :
    (["python".data] : List Skill) ≠ [] ∧
    (["python".data, "sql".data] : List Skill) ≠ [] ∧
    (evaluate_match ["python".data] ["python".data, "sql".data] [] none).percentage =
      min 100 ⌊100 * (jobCoverageCount ["python".data] ["python".data, "sql".data] : ℚ) /
          ((max 1 (normalizedSet ["python".data, "sql".data]).length : ℕ) : ℚ)
        + min 30 (totalScoreOf ["python".data] ["python".data, "sql".data]
            (ctxFor none []) * 2)⌋ :=
  ⟨by decide, by decide,
   C1_percentage_formula ["python".data] ["python".data, "sql".data] [] none
     (by decide) (by decide)⟩

/-! ### Whitespace and substring lemmas for the experience-rule analysis -/

lemma boolEqOfIff (a b : Bool) (h : (a = true) ↔ (b = true)) : a = b := by
  cases a <;> cases b <;> simp_all

lemma infix_wsHead (k w r : List Char) (hk : k ≠ [])
    (hkc : ∀ ch ∈ k, ch.isWhitespace = false)
    (hw : ∀ ch ∈ w, ch.isWhitespace = true) : (k <:+: w ++ r) ↔ k <:+: r := by
  induction w with
  | nil => simp
  | cons c w ih =>
    have hw2 : ∀ ch ∈ w, ch.isWhitespace = true := fun ch hch =>
      hw ch (List.mem_cons_of_mem c hch)
    rw [List.cons_append]
    constructor
    · intro h
      rcases List.infix_cons_iff.mp h with hpre | hinf
      · exfalso
        rcases k with _ | ⟨kh, kt⟩
        · exact hk rfl
        · have h1 : kh = c := (List.cons_prefix_cons.mp hpre).1
          have h2 : kh.isWhitespace = false := hkc kh (List.mem_cons_self kh kt)
          have h3 : c.isWhitespace = true := hw c (List.mem_cons_self c w)
          rw [h1, h3] at h2
          simp at h2
      · exact (ih hw2).mp hinf
    · intro h
      exact List.infix_cons ((ih hw2).mpr h)

lemma infix_wsTail (k r w : List Char) (hk : k ≠ [])
    (hkc : ∀ ch ∈ k, ch.isWhitespace = false)
    (hw : ∀ ch ∈ w, ch.isWhitespace = true) : (k <:+: r ++ w) ↔ k <:+: r := by
  have hk2 : k.reverse ≠ [] := by simpa using hk
  have hkc2 : ∀ ch ∈ k.reverse, ch.isWhitespace = false := fun ch hch =>
    hkc ch (List.mem_reverse.mp hch)
  have hw2 : ∀ ch ∈ w.reverse, ch.isWhitespace = true := fun ch hch =>
    hw ch (List.mem_reverse.mp hch)
  constructor
  · intro h
    have h1 : k.reverse <:+: (r ++ w).reverse := List.reverse_infix.mpr h
    rw [List.reverse_append] at h1
    exact List.reverse_infix.mp ((infix_wsHead k.reverse w.reverse r.reverse hk2 hkc2 hw2).mp h1)
  · intro h
    have h1 : k.reverse <:+: r.reverse := List.reverse_infix.mpr h
    have h2 := (infix_wsHead k.reverse w.reverse r.reverse hk2 hkc2 hw2).mpr h1
    rw [← List.reverse_append] at h2
    exact List.reverse_infix.mp h2

lemma pyStrip_decomp (s : List Char) :
    ∃ w1 w2, (∀ ch ∈ w1, ch.isWhitespace = true) ∧ (∀ ch ∈ w2, ch.isWhitespace = true) ∧
      s = w1 ++ pyStrip s ++ w2 := by
  refine ⟨s.takeWhile Char.isWhitespace,
    ((s.dropWhile Char.isWhitespace).reverse.takeWhile Char.isWhitespace).reverse,
    fun ch hch => List.mem_takeWhile_imp hch,
    fun ch hch => List.mem_takeWhile_imp (List.mem_reverse.mp hch), ?_⟩
  rw [pyStrip]
  set d := s.dropWhile Char.isWhitespace with hd
  have h2 : d.reverse =
      d.reverse.takeWhile Char.isWhitespace ++ d.reverse.dropWhile Char.isWhitespace :=
    (List.takeWhile_append_dropWhile _ _).symm
  have h3 : d = (d.reverse.dropWhile Char.isWhitespace).reverse ++
      (d.reverse.takeWhile Char.isWhitespace).reverse := by
    calc d = d.reverse.reverse := (List.reverse_reverse d).symm
    _ = (d.reverse.takeWhile Char.isWhitespace ++
          d.reverse.dropWhile Char.isWhitespace).reverse := by rw [← h2]
    _ = _ := by rw [List.reverse_append]
  calc s = s.takeWhile Char.isWhitespace ++ d := (List.takeWhile_append_dropWhile _ _).symm
  _ = s.takeWhile Char.isWhitespace ++ ((d.reverse.dropWhile Char.isWhitespace).reverse ++
        (d.reverse.takeWhile Char.isWhitespace).reverse) := by rw [← h3]
  _ = _ := by rw [← List.append_assoc]

lemma infix_strip_iff (k t : List Char) (hk : k ≠ [])
    (hkc : ∀ ch ∈ k, ch.isWhitespace = false) : k <:+: pyStrip t ↔ k <:+: t := by
  obtain ⟨w1, w2, hw1, hw2, hdec⟩ := pyStrip_decomp t
  constructor
  · intro h
    rw [hdec, List.append_assoc]
    exact (infix_wsHead k w1 _ hk hkc hw1).mpr ((infix_wsTail k _ w2 hk hkc hw2).mpr h)
  · intro h
    rw [hdec, List.append_assoc] at h
    exact (infix_wsTail k _ w2 hk hkc hw2).mp ((infix_wsHead k w1 _ hk hkc hw1).mp h)

lemma prefix_avoid_char (c : Char) (y : List Char) :
    ∀ (k x : List Char), (∀ ch ∈ k, ch ≠ c) → k <+: x ++ c :: y → k <+: x := by
  intro k
  induction k with
  | nil => intro x _ _; exact List.nil_prefix
  | cons kh kt ih =>
    intro x hkc h
    cases x with
    | nil =>
      exfalso
      rw [List.nil_append] at h
      exact hkc kh (List.mem_cons_self kh kt) (List.cons_prefix_cons.mp h).1
    | cons a x2 =>
      rw [List.cons_append] at h
      obtain ⟨he, ht⟩ := List.cons_prefix_cons.mp h
      exact List.cons_prefix_cons.mpr
        ⟨he, ih x2 (fun ch hch => hkc ch (List.mem_cons_of_mem kh hch)) ht⟩

lemma infix_sep_iff (c : Char) (k : List Char) (hk : k ≠ []) (hkc : ∀ ch ∈ k, ch ≠ c) :
    ∀ (x y : List Char), (k <:+: x ++ c :: y) ↔ (k <:+: x ∨ k <:+: y) := by
  intro x
  induction x with
  | nil =>
    intro y
    rw [List.nil_append, List.infix_cons_iff]
    constructor
    · rintro (hpre | hinf)
      · exfalso
        rcases k with _ | ⟨kh, kt⟩
        · exact hk rfl
        · exact hkc kh (List.mem_cons_self kh kt) (List.cons_prefix_cons.mp hpre).1
      · exact Or.inr hinf
    · rintro (hx | hy)
      · exact absurd (by simpa using hx) hk
      · exact Or.inr hy
  | cons a x2 ih =>
    intro y
    rw [List.cons_append, List.infix_cons_iff]
    constructor
    · rintro (hpre | hinf)
      · left
        have h1 := prefix_avoid_char c y k (a :: x2) hkc (by rw [List.cons_append]; exact hpre)
        obtain ⟨t, ht⟩ := h1
        exact ⟨[], t, by simpa using ht⟩
      · rcases (ih y).mp hinf with hx | hy
        · exact Or.inl (List.infix_cons hx)
        · exact Or.inr hy
    · rintro (hx | hy)
      · rcases List.infix_cons_iff.mp hx with hpre | hinf
        · left
          obtain ⟨t, ht⟩ := hpre
          exact ⟨t ++ c :: y, by rw [← List.append_assoc, ht, List.cons_append]⟩
        · exact Or.inr ((ih y).mpr (Or.inl hinf))
      · exact Or.inr ((ih y).mpr (Or.inr hy))

lemma joinSpace_append_single (u : List Skill) (s1 : Skill) (hu : u ≠ []) :
    joinSpace (u ++ [s1]) = joinSpace u ++ ' ' :: s1 := by
  induction u with
  | nil => exact absurd rfl hu
  | cons a u ih =>
    cases u with
    | nil => rfl
    | cons b u2 =>
      have h := ih (by simp)
      have e1 : joinSpace ((a :: b :: u2) ++ [s1]) =
          a ++ ' ' :: joinSpace ((b :: u2) ++ [s1]) := rfl
      have e2 : joinSpace (a :: b :: u2) = a ++ ' ' :: joinSpace (b :: u2) := rfl
      rw [e1, e2, h]
      simp

lemma infix_joinSpace_of_mem (s : Skill) (l : List Skill) (h : s ∈ l) :
    s <:+: joinSpace l := by
  induction l with
  | nil => simp at h
  | cons a l ih =>
    rcases List.mem_cons.mp h with h1 | h1
    · subst h1
      cases l with
      | nil => exact List.infix_refl s
      | cons b t =>
        refine ⟨[], ' ' :: joinSpace (b :: t), ?_⟩
        simp [joinSpace]
    · cases l with
      | nil => simp at h1
      | cons b t =>
        have h2 := ih h1
        have h3 : joinSpace (b :: t) <:+: joinSpace (a :: b :: t) := by
          refine ⟨a ++ [' '], [], ?_⟩
          simp [joinSpace]
        exact h2.trans h3

lemma toLower_space : Char.toLower ' ' = ' ' := by decide

lemma pyLower_sep (x y : List Char) :
    pyLower (x ++ ' ' :: y) = pyLower x ++ ' ' :: pyLower y := by
  simp [pyLower, toLower_space]

lemma expKeywords_ok (l : Level) :
    ∀ k ∈ ExperienceRule.experience_keywords l,
      k ≠ [] ∧ ∀ ch ∈ k, ch.isWhitespace = false := by
  cases l <;> decide

lemma hasLevelKw_iff (t : List Char) (l : Level) :
    ExperienceRule.hasLevelKw t l = true ↔
      ∃ k ∈ ExperienceRule.experience_keywords l, k <:+: t := by
  simp [ExperienceRule.hasLevelKw, pyIn]

lemma hasLevelKw_sep (x y : List Char) (l : Level) :
    ExperienceRule.hasLevelKw (x ++ ' ' :: y) l =
      (ExperienceRule.hasLevelKw x l || ExperienceRule.hasLevelKw y l) := by
  apply boolEqOfIff
  rw [Bool.or_eq_true, hasLevelKw_iff, hasLevelKw_iff, hasLevelKw_iff]
  constructor
  · rintro ⟨k, hkmem, hinf⟩
    obtain ⟨hne, hws⟩ := expKeywords_ok l k hkmem
    have hnc : ∀ ch ∈ k, ch ≠ ' ' := by
      intro ch hch hcontra
      have h1 := hws ch hch
      rw [hcontra] at h1
      exact absurd h1 (by decide)
    rcases (infix_sep_iff ' ' k hne hnc x y).mp hinf with h | h
    · exact Or.inl ⟨k, hkmem, h⟩
    · exact Or.inr ⟨k, hkmem, h⟩
  · intro h
    have hsplit : ∃ k ∈ ExperienceRule.experience_keywords l, (k <:+: x ∨ k <:+: y) := by
      rcases h with ⟨k, hkmem, hinf⟩ | ⟨k, hkmem, hinf⟩
      · exact ⟨k, hkmem, Or.inl hinf⟩
      · exact ⟨k, hkmem, Or.inr hinf⟩
    obtain ⟨k, hkmem, hinf⟩ := hsplit
    obtain ⟨hne, hws⟩ := expKeywords_ok l k hkmem
    have hnc : ∀ ch ∈ k, ch ≠ ' ' := by
      intro ch hch hcontra
      have h1 := hws ch hch
      rw [hcontra] at h1
      exact absurd h1 (by decide)
    exact ⟨k, hkmem, (infix_sep_iff ' ' k hne hnc x y).mpr hinf⟩

lemma hasLevelKw_strip (t : List Char) (l : Level) :
    ExperienceRule.hasLevelKw (pyStrip t) l = ExperienceRule.hasLevelKw t l := by
  apply boolEqOfIff
  rw [hasLevelKw_iff, hasLevelKw_iff]
  constructor
  · rintro ⟨k, hkmem, hinf⟩
    obtain ⟨hne, hws⟩ := expKeywords_ok l k hkmem
    exact ⟨k, hkmem, (infix_strip_iff k t hne hws).mp hinf⟩
  · rintro ⟨k, hkmem, hinf⟩
    obtain ⟨hne, hws⟩ := expKeywords_ok l k hkmem
    exact ⟨k, hkmem, (infix_strip_iff k t hne hws).mpr hinf⟩

lemma hasLevelKw_mono_infix (t1 t2 : List Char) (l : Level) (h : t1 <:+: t2) :
    ExperienceRule.hasLevelKw t1 l = true → ExperienceRule.hasLevelKw t2 l = true := by
  rw [hasLevelKw_iff, hasLevelKw_iff]
  rintro ⟨k, hkmem, hinf⟩
  exact ⟨k, hkmem, hinf.trans h⟩

lemma expScoreVal_nat (uo jo : Option Level) :
    expScoreVal uo jo = (expScoreNat uo jo : ℚ) / 2 := by
  rcases uo with _ | ue <;> rcases jo with _ | je <;>
    simp only [expScoreVal, expScoreNat, ExperienceRule.weight] <;>
    (try split_ifs) <;> norm_num

lemma expFlagsMonoNat : ∀ ps pm pj fs fm fj qs qm qj : Bool,
    (fs = true → qs = true) → (fm = true → qm = true) → (fj = true → qj = true) →
    expScoreNat (ExperienceRule.levelFromFlags ps pm pj)
        (ExperienceRule.levelFromFlags qs qm qj) ≤
      expScoreNat (ExperienceRule.levelFromFlags (ps || fs) (pm || fm) (pj || fj))
        (ExperienceRule.levelFromFlags qs qm qj) := by decide

lemma expFlagsMono (ps pm pj fs fm fj qs qm qj : Bool)
    (h1 : fs = true → qs = true) (h2 : fm = true → qm = true)
    (h3 : fj = true → qj = true) :
    expScoreVal (ExperienceRule.levelFromFlags ps pm pj)
        (ExperienceRule.levelFromFlags qs qm qj) ≤
      expScoreVal (ExperienceRule.levelFromFlags (ps || fs) (pm || fm) (pj || fj))
        (ExperienceRule.levelFromFlags qs qm qj) := by
  rw [expScoreVal_nat, expScoreVal_nat]
  have h := expFlagsMonoNat ps pm pj fs fm fj qs qm qj h1 h2 h3
  have h4 : ((expScoreNat (ExperienceRule.levelFromFlags ps pm pj)
      (ExperienceRule.levelFromFlags qs qm qj) : ℕ) : ℚ) ≤
      ((expScoreNat (ExperienceRule.levelFromFlags (ps || fs) (pm || fm) (pj || fj))
        (ExperienceRule.levelFromFlags qs qm qj) : ℕ) : ℚ) := by exact_mod_cast h
  linarith

lemma expScore_mono (u j : List Skill) (c : Ctx) (s s1 : Skill) (hu : u ≠ [])
    (hs : s ∈ j) (hnorm : normLowerStrip s1 = normLowerStrip s) :
    (ExperienceRule.evaluate u j c).score ≤ (ExperienceRule.evaluate (u ++ [s1]) j c).score := by
  rw [expEval_score, expEval_score]
  have htext : pyLower (joinSpace (u ++ [s1])) =
      pyLower (joinSpace u) ++ ' ' :: pyLower s1 := by
    rw [joinSpace_append_single u s1 hu, pyLower_sep]
  have hflags : ∀ l : Level,
      ExperienceRule.hasLevelKw (pyLower (joinSpace (u ++ [s1]))) l =
        (ExperienceRule.hasLevelKw (pyLower (joinSpace u)) l ||
          ExperienceRule.hasLevelKw (pyLower s1) l) := by
    intro l
    rw [htext, hasLevelKw_sep]
  have hstripEq : pyStrip (pyLower s1) = pyStrip (pyLower s) := by
    simpa [normLowerStrip] using hnorm
  have htransfer : ∀ l : Level,
      ExperienceRule.hasLevelKw (pyLower s1) l = true →
        ExperienceRule.hasLevelKw (pyLower (joinSpace j)) l = true := by
    intro l h
    have h1 : ExperienceRule.hasLevelKw (pyLower s) l = true := by
      rw [← hasLevelKw_strip (pyLower s) l, ← hstripEq, hasLevelKw_strip]
      exact h
    have hinf : pyLower s <:+: pyLower (joinSpace j) := by
      simpa [pyLower] using List.IsInfix.map Char.toLower (infix_joinSpace_of_mem s j hs)
    exact hasLevelKw_mono_infix (pyLower s) (pyLower (joinSpace j)) l hinf h1
  unfold ExperienceRule.extractExperienceLevel ExperienceRule.extractLevelText
  rw [hflags Level.senior, hflags Level.mid, hflags Level.junior]
  exact expFlagsMono _ _ _ _ _ _ _ _ _
    (htransfer Level.senior) (htransfer Level.mid) (htransfer Level.junior)

lemma length_filter_mono {α : Type} (l : List α) (p q : α → Bool)
    (h : ∀ a ∈ l, p a = true → q a = true) :
    (l.filter p).length ≤ (l.filter q).length := by
  induction l with
  | nil => simp
  | cons a l ih =>
    have ih2 := ih (fun b hb => h b (List.mem_cons_of_mem a hb))
    by_cases hp : p a = true
    · rw [List.filter_cons_of_pos hp, List.filter_cons_of_pos (h a (List.mem_cons_self a l) hp)]
      simpa using ih2
    · rw [List.filter_cons_of_neg (by simpa using hp)]
      by_cases hq : q a = true
      · rw [List.filter_cons_of_pos hq]
        exact ih2.trans (by simp)
      · rw [List.filter_cons_of_neg (by simpa using hq)]
        exact ih2

lemma dedup_filter_length_mono {α : Type} [DecidableEq α] (a a2 : List α) (p : α → Bool)
    (h : ∀ y ∈ a, y ∈ a2) :
    (a.dedup.filter p).length ≤ (a2.dedup.filter p).length := by
  have h1 : (a.dedup.filter p).Nodup := (List.nodup_dedup a).filter p
  have h2 : (a2.dedup.filter p).Nodup := (List.nodup_dedup a2).filter p
  rw [← List.toFinset_card_of_nodup h1, ← List.toFinset_card_of_nodup h2]
  apply Finset.card_le_card
  intro y hy
  simp only [List.mem_toFinset, List.mem_filter, List.mem_dedup] at hy ⊢
  exact ⟨h y hy.1, hy.2⟩

lemma exactScore_mono (u j : List Skill) (c : Ctx) (s1 : Skill) :
    (ExactMatchRule.evaluate u j c).score ≤ (ExactMatchRule.evaluate (u ++ [s1]) j c).score := by
  simp only [ExactMatchRule.evaluate]
  have h := dedup_filter_length_mono (u.map normStripLower) ((u ++ [s1]).map normStripLower)
    (fun x => decide (x ∈ (j.map normStripLower).dedup))
    (by
      intro y hy
      rw [List.map_append]
      exact List.mem_append_left _ hy)
  exact mul_le_mul_of_nonneg_right (by exact_mod_cast h)
    (by norm_num [ExactMatchRule.weight])

lemma techScore_mono (u j : List Skill) (c : Ctx) (s1 : Skill) :
    (TechnicalSkillRule.evaluate u j c).score ≤
      (TechnicalSkillRule.evaluate (u ++ [s1]) j c).score := by
  simp only [TechnicalSkillRule.evaluate]
  have h := dedup_filter_length_mono
    ((u.filter TechnicalSkillRule.isTechnical).map normStripLower)
    (((u ++ [s1]).filter TechnicalSkillRule.isTechnical).map normStripLower)
    (fun x => decide (x ∈ ((j.filter TechnicalSkillRule.isTechnical).map normStripLower).dedup))
    (by
      intro y hy
      rw [List.filter_append, List.map_append]
      exact List.mem_append_left _ hy)
  exact mul_le_mul_of_nonneg_right (by exact_mod_cast h)
    (by norm_num [TechnicalSkillRule.weight])

lemma softScore_mono (u j : List Skill) (c : Ctx) (s1 : Skill) :
    (SoftSkillRule.evaluate u j c).score ≤
      (SoftSkillRule.evaluate (u ++ [s1]) j c).score := by
  simp only [SoftSkillRule.evaluate]
  have h := dedup_filter_length_mono
    ((u.filter SoftSkillRule.isSoftSkill).map normStripLower)
    (((u ++ [s1]).filter SoftSkillRule.isSoftSkill).map normStripLower)
    (fun x => decide (x ∈ ((j.filter SoftSkillRule.isSoftSkill).map normStripLower).dedup))
    (by
      intro y hy
      rw [List.filter_append, List.map_append]
      exact List.mem_append_left _ hy)
  exact mul_le_mul_of_nonneg_right (by exact_mod_cast h)
    (by norm_num [SoftSkillRule.weight])

lemma simScore_mono (u j : List Skill) (c : Ctx) (s1 : Skill) :
    (SimilarityRule.evaluate u j c).score ≤
      (SimilarityRule.evaluate (u ++ [s1]) j c).score := by
  simp only [SimilarityRule.evaluate, List.length_map]
  have h : (SimilarityRule.simPairs u j).length ≤
      (SimilarityRule.simPairs (u ++ [s1]) j).length := by
    simp only [SimilarityRule.simPairs, List.flatMap_append, List.length_append]
    exact Nat.le_add_right _ _
  exact mul_le_mul_of_nonneg_left (by exact_mod_cast h)
    (by norm_num [SimilarityRule.weight])

lemma totalScoreOf_mono (u j : List Skill) (c : Ctx) (s s1 : Skill) (hu : u ≠ [])
    (hs : s ∈ j) (hnorm : normLowerStrip s1 = normLowerStrip s) :
    totalScoreOf u j c ≤ totalScoreOf (u ++ [s1]) j c := by
  have h1 := exactScore_mono u j c s1
  have h2 := techScore_mono u j c s1
  have h3 := softScore_mono u j c s1
  have h4 := simScore_mono u j c s1
  have h5 := expScore_mono u j c s s1 hu hs hnorm
  rw [totalScoreOf, totalScoreOf]
  linarith

lemma engineBase_mono (u j : List Skill) (s1 : Skill) :
    engineBase u j ≤ engineBase (u ++ [s1]) j := by
  have hcount : jobCoverageCount u j ≤ jobCoverageCount (u ++ [s1]) j := by
    rw [jobCoverageCount, jobCoverageCount]
    apply length_filter_mono
    intro x hx hmem
    simp only [normalizedSet, List.mem_dedup, decide_eq_true_eq, List.map_append] at hmem ⊢
    exact List.mem_append_left _ hmem
  rw [engineBase, engineBase]
  have hD : (0:ℚ) < ((max 1 (normalizedSet j).length : ℕ) : ℚ) := by
    have h1 : (1:ℕ) ≤ max 1 (normalizedSet j).length := le_max_left 1 _
    exact_mod_cast Nat.lt_of_lt_of_le Nat.zero_lt_one h1
  have hc : (jobCoverageCount u j : ℚ) ≤ (jobCoverageCount (u ++ [s1]) j : ℚ) := by
    exact_mod_cast hcount
  apply mul_le_mul_of_nonneg_right _ (by norm_num : (0:ℚ) ≤ 100)
  exact (div_le_div_iff_of_pos_right hD).mpr hc

/-- C7: appending to the user skills a skill whose normalized form equals the
normalized form of a job skill that is currently missing never decreases the
percentage returned by `evaluate_match`. -/
theorem C7_matching_skill_monotone (u j : List Skill) (jd : List Char) (uc : Option Ctx)
    (s s1 : Skill) (hu : u ≠ []) (hj : j ≠ []) (hs : s ∈ j)
    (hmiss : normLowerStrip s ∉ u.map normLowerStrip)
    (hnorm : normLowerStrip s1 = normLowerStrip s) :
    (evaluate_match u j jd uc).percentage ≤
      (evaluate_match (u ++ [s1]) j jd uc).percentage := by
  have hu2 : u ++ [s1] ≠ [] := by simp
  rw [evalMatch_percentage_eq u j jd uc hu hj,
    evalMatch_percentage_eq (u ++ [s1]) j jd uc hu2 hj]
  apply min_le_min (le_refl 100)
  apply pyInt_mono _ _ (baseBonus_nonneg u j (ctxFor uc jd))
  have hb := engineBase_mono u j s1
  have ht := totalScoreOf_mono u j (ctxFor uc jd) s s1 hu hs hnorm
  have hbonus : min 30 (totalScoreOf u j (ctxFor uc jd) * 2) ≤
      min 30 (totalScoreOf (u ++ [s1]) j (ctxFor uc jd) * 2) :=
    min_le_min (le_refl 30) (by linarith)
  linarith

theorem C7_matching_skill_monotone_witness :
    ("sql".data ∈ (["python".data, "sql".data] : List Skill)) ∧
    normLowerStrip "sql".data ∉ ([ "python".data] : List Skill).map normLowerStrip ∧
    normLowerStrip " SQL ".data = normLowerStrip "sql".data ∧
    (evaluate_match ["python".data] ["python".data, "sql".data] [] none).percentage ≤
      (evaluate_match (["python".data] ++ [" SQL ".data])
        ["python".data, "sql".data] [] none).percentage :=
  ⟨by decide, by decide, by decide,
   C7_matching_skill_monotone ["python".data] ["python".data, "sql".data] [] none
     "sql".data " SQL ".data (by decide) (by decide) (by decide) (by decide) (by decide)⟩
